import Mathlib

/-!
Shallow embedding of the sparse-set Entity Component System sketched in the
repository (the ECS chapter of the course README and its earlier revision).
The C++ source stores, for each component type `T`, a
`SparseSet<T>` holding an `std::unordered_map<EntityID, T>`; the sets live in
a vector `m_components` of type-erased `SparseSetHolder` pointers, indexed by
the `ComponentIndex` handed out by `GetComponentIndex<T>()` / `GetNextIndex()`.

In the embedding, component kinds are an abstract type `K` with decidable
equality (each C++ component type is one value of `K`), and all component
values share one abstract type `V` whose `Inhabited.default` models the
value-initialized `T{}` produced by `unordered_map::operator[]`.  An
`unordered_map` is modelled as an association list in unspecified order; the
static counter / memo table of `GetComponentIndex` is modelled as an explicit
`Registry` threaded through each operation.
-/

set_option autoImplicit false

/-- Embeds `typedef long EntityID;` from the source.  No claim exercises
64-bit overflow, so the mathematical integers suffice. -/
abbrev EntityID := Int

/-- The contents of one `SparseSet<T>`: the entries of its
`std::unordered_map<EntityID, T>`, in unspecified (list) order. -/
abbrev Store (V : Type) := List (EntityID × V)

/-- Association-list lookup: the value stored at the first entry whose key
equals `a`.  Models key lookup in `std::unordered_map` (and in the memo table
of component indices). -/
def alookup {α β : Type} [DecidableEq α] (a : α) : List (α × β) → Option β
  | [] => none
  | p :: rest => if p.1 = a then some p.2 else alookup a rest

/-- Embeds `data.erase( e )` on the `unordered_map` of a `SparseSet`:
removes every entry with key `e`. -/
def eraseE {V : Type} (e : EntityID) : Store V → Store V
  | [] => []
  | p :: rest => if p.1 = e then eraseE e rest else p :: eraseE e rest

/-- Embeds writing through the reference returned by `operator[]`, as in
`ECS.Get<Position>( entity ) = Position{0,0};`: the entry for `e` is replaced
by `v` if present, and appended otherwise. -/
def updE {V : Type} (e : EntityID) (v : V) : Store V → Store V
  | [] => [(e, v)]
  | p :: rest => if p.1 = e then (e, v) :: rest else p :: updE e v rest

/-- Reads slot `i` of the store vector `m_components`.  Returns `none` both
for an out-of-range index and for a slot holding a null `unique_ptr`. -/
def slotAt {α : Type} : List (Option α) → Nat → Option α
  | [], _ => none
  | s :: _, 0 => s
  | _ :: rest, n + 1 => slotAt rest n

/-- Writes slot `i` of the store vector, leaving the vector unchanged when
`i` is out of range (the C++ code only writes in-range slots). -/
def setSlot {α : Type} : List (Option α) → Nat → Option α → List (Option α)
  | [], _, _ => []
  | _ :: rest, 0, v => v :: rest
  | s :: rest, n + 1, v => s :: setSlot rest n v

/-- Embeds `m_components.resize( n )` when growing: new slots hold null
`unique_ptr`s. -/
def padTo {α : Type} (l : List (Option α)) (n : Nat) : List (Option α) :=
  l ++ List.replicate (n - l.length) none

/-- The state behind `GetComponentIndex<T>()` and `GetNextIndex()`: the value
of the static counter inside `GetNextIndex` (as the next index to hand out)
and the memoized per-type static `index` variables, as a type-to-index table. -/
structure Registry (K : Type) where
  nextIndex : Nat
  table : List (K × Nat)

/-- Embeds `GetComponentIndex<T>()`: the memoized index for `k` if one was
already assigned, otherwise the next counter value, freshly memoized
(`static ComponentIndex index = GetNextIndex();`). -/
def GetComponentIndex {K : Type} [DecidableEq K] (r : Registry K) (k : K) :
    Nat × Registry K :=
  match alookup k r.table with
  | some i => (i, r)
  | none => (r.nextIndex, ⟨r.nextIndex + 1, r.table ++ [(k, r.nextIndex)]⟩)

/-- The entity-component-system state: the component-index registry together
with `std::vector< std::unique_ptr< SparseSetHolder > > m_components;`.
A slot holds `none` for a null pointer and `some m` for a `SparseSet` whose
`unordered_map` has entries `m`. -/
structure ECS (K V : Type) where
  reg : Registry K
  m_components : List (Option (Store V))

/-- Embeds `GetAppropriateSparseSet<T>()`: resolve the component index for
`k`, grow `m_components` if the index is past the end, create the sparse set
if the slot is null, and return the index of the (now existing) set together
with the updated state. -/
def ECS.GetAppropriateSparseSet {K V : Type} [DecidableEq K]
    (st : ECS K V) (k : K) : Nat × ECS K V :=
  let q := GetComponentIndex st.reg k
  let comps0 :=
    if st.m_components.length ≤ q.1 then padTo st.m_components (q.1 + 1)
    else st.m_components
  let comps1 :=
    match slotAt comps0 q.1 with
    | none => setSlot comps0 q.1 (some [])
    | some _ => comps0
  (q.1, ⟨q.2, comps1⟩)

/-- The map contents of kind `k`'s sparse set in state `st`, observationally:
empty when `k` has no assigned index or its slot is absent.  Used to phrase
the membership predicate and value reads. -/
def ECS.storeOf {K V : Type} [DecidableEq K] (st : ECS K V) (k : K) : Store V :=
  match alookup k st.reg.table with
  | none => []
  | some i => (slotAt st.m_components i).getD []

/-- Embeds `SparseSet<T>::Has( e )`, i.e. `data.count( e ) > 0`, lifted
through the index registry: the observational membership predicate
`has<K>(e)` of the spec.  A kind with no store yet has no members. -/
def ECS.Has {K V : Type} [DecidableEq K] (st : ECS K V) (k : K) (e : EntityID) :
    Bool :=
  (alookup e (st.storeOf k)).isSome

/-- Embeds `template< typename T > T& Get( EntityID entity ) { return
GetAppropriateSparseSet<T>()[ entity ]; }`.  `operator[]` returns the stored
value if the key is present and otherwise inserts a value-initialized `T{}`
(modelled by `default`) and returns it. -/
def ECS.Get {K V : Type} [DecidableEq K] [Inhabited V]
    (st : ECS K V) (k : K) (e : EntityID) : V × ECS K V :=
  let p := st.GetAppropriateSparseSet k
  let m := (slotAt p.2.m_components p.1).getD []
  match alookup e m with
  | some v => (v, p.2)
  | none =>
      (default, ⟨p.2.reg, setSlot p.2.m_components p.1 (some (m ++ [(e, default)]))⟩)

/-- Embeds assignment through the reference returned by `Get`, as in
`ECS.Get<Position>( entity ) = p;`: the entry for `e` in kind `k`'s sparse
set becomes `v`. -/
def ECS.SetComp {K V : Type} [DecidableEq K]
    (st : ECS K V) (k : K) (e : EntityID) (v : V) : ECS K V :=
  let p := st.GetAppropriateSparseSet k
  let m := (slotAt p.2.m_components p.1).getD []
  ⟨p.2.reg, setSlot p.2.m_components p.1 (some (updE e v m))⟩

/-- Embeds `template< typename T > void Drop( EntityID e ) {
GetAppropriateSparseSet<T>().erase( e ); }`. -/
def ECS.Drop {K V : Type} [DecidableEq K]
    (st : ECS K V) (k : K) (e : EntityID) : ECS K V :=
  let p := st.GetAppropriateSparseSet k
  let m := (slotAt p.2.m_components p.1).getD []
  ⟨p.2.reg, setSlot p.2.m_components p.1 (some (eraseE e m))⟩

/-- One pass of `Destroy`'s loop body over the store vector: each existing
sparse set drops entity `e` (`comps->Drop( e );`), null slots are untouched. -/
def dropAll {V : Type} (e : EntityID) : List (Option (Store V)) → List (Option (Store V))
  | [] => []
  | s :: rest => Option.map (eraseE e) s :: dropAll e rest

/-- Embeds `void Destroy( EntityID e ) { for( const auto& comps :
m_components ) { comps->Drop( e ); } }`. -/
def ECS.Destroy {K V : Type} (st : ECS K V) (e : EntityID) : ECS K V :=
  ⟨st.reg, dropAll e st.m_components⟩

/-- Embeds `HasAll<T, Rest...>( entity )`: the recursive call on `Rest`
first (`result = HasAll<Rest...>(entity);`), then
`result && GetAppropriateSparseSet<T>().count( entity ) > 0`, whose
short-circuit skips the store access when `result` is already false.
The state carries the sparse sets lazily created along the way. -/
def ECS.HasAll {K V : Type} [DecidableEq K]
    (e : EntityID) : List K → ECS K V → Bool × ECS K V
  | [], st => (true, st)
  | k :: rest, st =>
      let q := ECS.HasAll e rest st
      if q.1 then
        let p := q.2.GetAppropriateSparseSet k
        let m := (slotAt p.2.m_components p.1).getD []
        ((alookup e m).isSome, p.2)
      else (false, q.2)

/-- The loop of `ForEach`: iterate the entries of the first kind's container,
and for each entity either invoke the callback directly (when the parameter
pack `AndAlsoTheseComponents` is empty, by `if constexpr`) or first filter by
`HasAll<AndAlsoTheseComponents...>( entity )`.  The first result component is
the sequence of entities passed to the callback, in iteration order. -/
def ECS.ForEachGo {K V : Type} [DecidableEq K]
    (rest : List K) : Store V → ECS K V → List EntityID × ECS K V
  | [], st => ([], st)
  | p :: es, st =>
      if rest.isEmpty then
        let q := ECS.ForEachGo rest es st
        (p.1 :: q.1, q.2)
      else
        let h := ECS.HasAll p.1 rest st
        let q := ECS.ForEachGo rest es h.2
        (if h.1 then p.1 :: q.1 else q.1, q.2)

/-- Embeds `ForEach<EntitiesThatHaveThisComponent, AndAlsoTheseComponents...>
( callback )`: fetch the container of the first kind, then run the loop.
The kinds are `k1 :: rest`; the first result component lists the entities the
callback is invoked on, in order. -/
def ECS.ForEach {K V : Type} [DecidableEq K]
    (st : ECS K V) (k1 : K) (rest : List K) : List EntityID × ECS K V :=
  let p := st.GetAppropriateSparseSet k1
  let container := (slotAt p.2.m_components p.1).getD []
  ECS.ForEachGo rest container p.2

/-- Modelled from the spec: the source declares `EntityID Create();` but
leaves its implementation as an exercise, so the entity allocator is taken
from the spec's words: it hands out fresh identifiers with "no two
simultaneously-alive entities share an identifier" and "no component stores
are touched".  `next` is the next unused identifier, `alive` the bookkeeping
set of currently-alive identifiers. -/
structure Alloc where
  next : EntityID
  alive : List EntityID

/-- Modelled from the spec: `create() -> EntityID` allocates and returns a
fresh identifier; its only side effect is allocator bookkeeping, the
component-store state `st` is returned untouched. -/
def Create {K V : Type} (a : Alloc) (st : ECS K V) : EntityID × Alloc × ECS K V :=
  (a.next, ⟨a.next + 1, a.next :: a.alive⟩, st)

/-- Modelled from the spec: a sequence of `n` consecutive `create()` calls,
returning the identifiers handed out. -/
def createMany {K V : Type} : Nat → Alloc → ECS K V → List EntityID × Alloc × ECS K V
  | 0, a, st => ([], a, st)
  | n + 1, a, st =>
      let c := Create a st
      let r := createMany n c.2.1 c.2.2
      (c.1 :: r.1, r.2)

/-- Calls `Destroy` on each identifier in the list, left to right. -/
def ECS.destroyEach {K V : Type} (st : ECS K V) (ids : List EntityID) : ECS K V :=
  ids.foldl ECS.Destroy st

/-- Well-formedness of the component-index registry, maintained by
`GetComponentIndex`: the memo table assigns at most one index per kind, never
reuses an index for two kinds, and only hands out indices below the counter. -/
def RegWF {K : Type} (r : Registry K) : Prop :=
  (∀ p ∈ r.table, ∀ q ∈ r.table, p.1 = q.1 → p = q) ∧
  (∀ p ∈ r.table, ∀ q ∈ r.table, p.2 = q.2 → p = q) ∧
  (∀ p ∈ r.table, p.2 < r.nextIndex)

/-- Well-formedness of an ECS state, maintained by all operations: the
registry is well-formed and every occupied slot of `m_components` holds a map
with no duplicate keys and sits at an index the registry has assigned to
some kind. -/
def ECS.WF {K V : Type} (st : ECS K V) : Prop :=
  RegWF st.reg ∧
  ∀ i ∈ List.range st.m_components.length,
    ∀ m ∈ (slotAt st.m_components i).toList,
      (m.map Prod.fst).Nodup ∧ ∃ p ∈ st.reg.table, p.2 = i

/-- Invariant of the spec-modelled allocator: alive identifiers are pairwise
distinct and all below the counter. -/
def AllocWF (a : Alloc) : Prop :=
  a.alive.Nodup ∧ ∀ x ∈ a.alive, x < a.next

/-! Basic lemmas about association lists. -/

theorem alookup_append_of_some {α β : Type} [DecidableEq α] (a : α)
    (l l2 : List (α × β)) (w : β) (h : alookup a l = some w) :
    alookup a (l ++ l2) = some w := by
  induction l with
  | nil => simp [alookup] at h
  | cons p rest ih =>
      by_cases hp : p.1 = a
      · simp [alookup, hp] at h ⊢; exact h
      · simp [alookup, hp] at h ⊢; exact ih h

theorem alookup_append_of_none {α β : Type} [DecidableEq α] (a : α)
    (l l2 : List (α × β)) (h : alookup a l = none) :
    alookup a (l ++ l2) = alookup a l2 := by
  induction l with
  | nil => simp
  | cons p rest ih =>
      by_cases hp : p.1 = a
      · simp [alookup, hp] at h
      · simp [alookup, hp] at h ⊢; exact ih h

theorem alookup_some_mem {α β : Type} [DecidableEq α] {a : α}
    {l : List (α × β)} {w : β} (h : alookup a l = some w) : (a, w) ∈ l := by
  induction l with
  | nil => simp [alookup] at h
  | cons p rest ih =>
      by_cases hp : p.1 = a
      · simp [alookup, hp] at h
        have hpa : p = (a, w) := by cases p; simp_all
        simp [hpa]
      · simp [alookup, hp] at h
        right
        exact ih h

theorem alookup_isSome_iff_mem_keys {α β : Type} [DecidableEq α] (a : α)
    (l : List (α × β)) : (alookup a l).isSome = true ↔ a ∈ l.map Prod.fst := by
  induction l with
  | nil => simp [alookup]
  | cons p rest ih =>
      by_cases hp : p.1 = a
      · simp [alookup, hp]
      · simp [alookup, hp, ih, Ne.symm hp]

theorem alookup_eraseE_self {V : Type} (e : EntityID) (m : Store V) :
    alookup e (eraseE e m) = none := by
  induction m with
  | nil => rfl
  | cons p rest ih =>
      by_cases hp : p.1 = e
      · simpa [eraseE, hp]
      · simpa [eraseE, alookup, hp]

theorem alookup_eraseE_ne {V : Type} {e e2 : EntityID} (h : e2 ≠ e)
    (m : Store V) : alookup e2 (eraseE e m) = alookup e2 m := by
  induction m with
  | nil => rfl
  | cons p rest ih =>
      by_cases hp : p.1 = e
      · have he : e ≠ e2 := fun hc => h hc.symm
        simp [eraseE, alookup, hp, he, ih]
      · by_cases hq : p.1 = e2
        · simp [eraseE, alookup, hp, hq, h]
        · simp [eraseE, alookup, hp, hq, ih]

theorem eraseE_of_alookup_none {V : Type} {e : EntityID} {m : Store V}
    (h : alookup e m = none) : eraseE e m = m := by
  induction m with
  | nil => rfl
  | cons p rest ih =>
      by_cases hp : p.1 = e
      · simp [alookup, hp] at h
      · simp [alookup, hp] at h
        simp [eraseE, hp, ih h]

theorem eraseE_idem {V : Type} (e : EntityID) (m : Store V) :
    eraseE e (eraseE e m) = eraseE e m :=
  eraseE_of_alookup_none (alookup_eraseE_self e m)

theorem alookup_updE_self {V : Type} (e : EntityID) (v : V) (m : Store V) :
    alookup e (updE e v m) = some v := by
  induction m with
  | nil => simp [updE, alookup]
  | cons p rest ih =>
      by_cases hp : p.1 = e
      · simp [updE, hp, alookup]
      · simp [updE, hp, alookup, ih]

theorem eraseE_sublist {V : Type} (e : EntityID) (m : Store V) :
    (eraseE e m).Sublist m := by
  induction m with
  | nil => simp [eraseE]
  | cons p rest ih =>
      by_cases hp : p.1 = e
      · simp only [eraseE, if_pos hp]
        exact ih.cons p
      · simp only [eraseE, if_neg hp]
        exact ih.cons₂ p

/-! Basic lemmas about the store vector. -/

theorem slotAt_replicate_none {α : Type} (n i : Nat) :
    slotAt (List.replicate n (none : Option α)) i = none := by
  induction n generalizing i with
  | zero => rfl
  | succ n ih =>
      cases i with
      | zero => rfl
      | succ i => simpa [List.replicate, slotAt] using ih i

theorem slotAt_append_replicate {α : Type} (l : List (Option α)) (n i : Nat) :
    slotAt (l ++ List.replicate n none) i = slotAt l i := by
  induction l generalizing i with
  | nil => simpa [slotAt] using slotAt_replicate_none n i
  | cons s rest ih =>
      cases i with
      | zero => rfl
      | succ i => simpa [slotAt] using ih i

theorem slotAt_padTo {α : Type} (l : List (Option α)) (n i : Nat) :
    slotAt (padTo l n) i = slotAt l i :=
  slotAt_append_replicate l (n - l.length) i

theorem length_padTo {α : Type} (l : List (Option α)) (n : Nat) :
    (padTo l n).length = max l.length n := by
  simp [padTo]
  omega

theorem length_setSlot {α : Type} (l : List (Option α)) (i : Nat) (v : Option α) :
    (setSlot l i v).length = l.length := by
  induction l generalizing i with
  | nil => rfl
  | cons s rest ih =>
      cases i with
      | zero => rfl
      | succ i => simpa [setSlot] using ih i

theorem slotAt_setSlot_self {α : Type} {l : List (Option α)} {i : Nat}
    (v : Option α) (h : i < l.length) : slotAt (setSlot l i v) i = v := by
  induction l generalizing i with
  | nil => simp at h
  | cons s rest ih =>
      cases i with
      | zero => rfl
      | succ i =>
          simp only [setSlot, slotAt]
          exact ih (by simpa using h)

theorem slotAt_setSlot_ne {α : Type} (l : List (Option α)) {i j : Nat}
    (v : Option α) (h : j ≠ i) : slotAt (setSlot l i v) j = slotAt l j := by
  induction l generalizing i j with
  | nil => rfl
  | cons s rest ih =>
      cases i with
      | zero =>
          cases j with
          | zero => exact absurd rfl h
          | succ j => rfl
      | succ i =>
          cases j with
          | zero => rfl
          | succ j => exact ih (fun hc => h (by omega))

theorem slotAt_some_lt {α : Type} {l : List (Option α)} {i : Nat} {m : α}
    (h : slotAt l i = some m) : i < l.length := by
  induction l generalizing i with
  | nil => simp [slotAt] at h
  | cons s rest ih =>
      cases i with
      | zero => simp
      | succ i =>
          simp only [slotAt] at h
          simpa using ih h

theorem slotAt_mem {α : Type} {l : List (Option α)} {i : Nat} {m : α}
    (h : slotAt l i = some m) : some m ∈ l := by
  induction l generalizing i with
  | nil => simp [slotAt] at h
  | cons s rest ih =>
      cases i with
      | zero => simp only [slotAt] at h; simp [h]
      | succ i =>
          simp only [slotAt] at h
          exact List.mem_cons_of_mem s (ih h)

theorem mem_setSlot {α : Type} {l : List (Option α)} {i : Nat} {v s : Option α}
    (h : s ∈ setSlot l i v) : s ∈ l ∨ s = v := by
  induction l generalizing i with
  | nil => simp [setSlot] at h
  | cons x rest ih =>
      cases i with
      | zero =>
          rcases List.mem_cons.mp h with h1 | h1
          · right; exact h1
          · left; exact List.mem_cons_of_mem x h1
      | succ i =>
          rcases List.mem_cons.mp h with h1 | h1
          · left; simp [h1]
          · rcases ih h1 with h2 | h2
            · left; exact List.mem_cons_of_mem x h2
            · right; exact h2

theorem slotAt_dropAll {V : Type} (e : EntityID)
    (l : List (Option (Store V))) (i : Nat) :
    slotAt (dropAll e l) i = Option.map (eraseE e) (slotAt l i) := by
  induction l generalizing i with
  | nil => rfl
  | cons s rest ih =>
      cases i with
      | zero => rfl
      | succ i => simpa [dropAll, slotAt] using ih i

/-! Lemmas about `GetComponentIndex`. -/

theorem gci_of_lookup_some {K : Type} [DecidableEq K] {r : Registry K} {k : K}
    {i : Nat} (h : alookup k r.table = some i) : GetComponentIndex r k = (i, r) := by
  simp [GetComponentIndex, h]

theorem gci_of_lookup_none {K : Type} [DecidableEq K] {r : Registry K} {k : K}
    (h : alookup k r.table = none) :
    GetComponentIndex r k =
      (r.nextIndex, ⟨r.nextIndex + 1, r.table ++ [(k, r.nextIndex)]⟩) := by
  simp [GetComponentIndex, h]

theorem gci_lookup {K : Type} [DecidableEq K] (r : Registry K) (k : K) :
    alookup k (GetComponentIndex r k).2.table = some (GetComponentIndex r k).1 := by
  cases h : alookup k r.table with
  | some i => simp [gci_of_lookup_some h, h]
  | none =>
      rw [gci_of_lookup_none h]
      have := alookup_append_of_none k r.table [(k, r.nextIndex)] h
      simp only [this]
      simp [alookup]

theorem gci_stable {K : Type} [DecidableEq K] (r : Registry K) (k : K) :
    GetComponentIndex (GetComponentIndex r k).2 k = GetComponentIndex r k :=
  gci_of_lookup_some (gci_lookup r k)

theorem gci_preserves {K : Type} [DecidableEq K] {r : Registry K} {k : K}
    {i : Nat} (h : alookup k r.table = some i) (k2 : K) :
    alookup k (GetComponentIndex r k2).2.table = some i := by
  cases h2 : alookup k2 r.table with
  | some j => simp [gci_of_lookup_some h2, h]
  | none =>
      rw [gci_of_lookup_none h2]
      exact alookup_append_of_some k r.table [(k2, r.nextIndex)] i h

theorem gci_preserves_none {K : Type} [DecidableEq K] {r : Registry K} {k : K}
    (h : alookup k r.table = none) (k2 : K) (hne : k ≠ k2) :
    alookup k (GetComponentIndex r k2).2.table = none := by
  cases h2 : alookup k2 r.table with
  | some j => simp [gci_of_lookup_some h2, h]
  | none =>
      rw [gci_of_lookup_none h2]
      rw [alookup_append_of_none k r.table [(k2, r.nextIndex)] h]
      simp [alookup, hne.symm]

theorem gci_table_mono {K : Type} [DecidableEq K] (r : Registry K) (k : K)
    {p : K × Nat} (h : p ∈ r.table) : p ∈ (GetComponentIndex r k).2.table := by
  cases h2 : alookup k r.table with
  | some j => simpa [gci_of_lookup_some h2] using h
  | none =>
      rw [gci_of_lookup_none h2]
      exact List.mem_append_left _ h

theorem regWF_gci {K : Type} [DecidableEq K] {r : Registry K} (hr : RegWF r)
    (k : K) : RegWF (GetComponentIndex r k).2 := by
  obtain ⟨h1, h2, h3⟩ := hr
  cases h0 : alookup k r.table with
  | some j => rw [gci_of_lookup_some h0]; exact ⟨h1, h2, h3⟩
  | none =>
      rw [gci_of_lookup_none h0]
      have hknot : k ∉ r.table.map Prod.fst := by
        intro hc
        have := (alookup_isSome_iff_mem_keys k r.table).mpr hc
        rw [h0] at this
        simp at this
      refine ⟨?_, ?_, ?_⟩
      · intro p hp q hq hpq
        rcases List.mem_append.mp hp with hp1 | hp1 <;>
          rcases List.mem_append.mp hq with hq1 | hq1
        · exact h1 p hp1 q hq1 hpq
        · exfalso
          simp at hq1
          apply hknot
          have hk : p.1 = k := by rw [hq1] at hpq; simpa using hpq
          rw [← hk]
          exact List.mem_map_of_mem Prod.fst hp1
        · exfalso
          simp at hp1
          apply hknot
          have hk : q.1 = k := by rw [hp1] at hpq; simpa using hpq.symm
          rw [← hk]
          exact List.mem_map_of_mem Prod.fst hq1
        · simp at hp1 hq1
          rw [hp1, hq1]
      · intro p hp q hq hpq
        rcases List.mem_append.mp hp with hp1 | hp1 <;>
          rcases List.mem_append.mp hq with hq1 | hq1
        · exact h2 p hp1 q hq1 hpq
        · exfalso
          simp at hq1
          have hlt := h3 p hp1
          rw [hq1] at hpq
          simp at hpq
          omega
        · exfalso
          simp at hp1
          have hlt := h3 q hq1
          rw [hp1] at hpq
          simp at hpq
          omega
        · simp at hp1 hq1
          rw [hp1, hq1]
      · intro p hp
        rcases List.mem_append.mp hp with hp1 | hp1
        · have := h3 p hp1
          simp only []
          omega
        · simp at hp1
          rw [hp1]
          simp

theorem gci_fst_lt {K : Type} [DecidableEq K] {r : Registry K} (hr : RegWF r)
    (k : K) : (GetComponentIndex r k).1 < (GetComponentIndex r k).2.nextIndex := by
  have h := gci_lookup r k
  have hmem := alookup_some_mem h
  exact (regWF_gci hr k).2.2 _ hmem

theorem alookup_of_mem_functional {K : Type} [DecidableEq K]
    {l : List (K × Nat)} (hfun : ∀ p ∈ l, ∀ q ∈ l, p.1 = q.1 → p = q)
    {p : K × Nat} (hp : p ∈ l) : alookup p.1 l = some p.2 := by
  induction l with
  | nil => simp at hp
  | cons x rest ih =>
      by_cases hx : x.1 = p.1
      · have : x = p := hfun x (List.mem_cons_self x rest) p hp hx
        simp [alookup, hx, this]
      · simp only [alookup, if_neg hx]
        rcases List.mem_cons.mp hp with h1 | h1
        · exact absurd (h1 ▸ rfl) hx
        · exact ih (fun a ha b hb => hfun a (List.mem_cons_of_mem x ha) b
            (List.mem_cons_of_mem x hb)) h1

/-! Lemmas about `GetAppropriateSparseSet`. -/

theorem gas_fst {K V : Type} [DecidableEq K] (st : ECS K V) (k : K) :
    (st.GetAppropriateSparseSet k).1 = (GetComponentIndex st.reg k).1 := rfl

theorem gas_reg {K V : Type} [DecidableEq K] (st : ECS K V) (k : K) :
    (st.GetAppropriateSparseSet k).2.reg = (GetComponentIndex st.reg k).2 := rfl

theorem gas_slot_self {K V : Type} [DecidableEq K] (st : ECS K V) (k : K) :
    slotAt (st.GetAppropriateSparseSet k).2.m_components
        (st.GetAppropriateSparseSet k).1 =
      some ((slotAt st.m_components (st.GetAppropriateSparseSet k).1).getD []) := by
  simp only [ECS.GetAppropriateSparseSet]
  by_cases hlen : st.m_components.length ≤ (GetComponentIndex st.reg k).1
  · rw [if_pos hlen]
    cases hslot : slotAt (padTo st.m_components ((GetComponentIndex st.reg k).1 + 1))
        (GetComponentIndex st.reg k).1 with
    | none =>
        have hst : slotAt st.m_components (GetComponentIndex st.reg k).1 = none := by
          rw [← slotAt_padTo st.m_components ((GetComponentIndex st.reg k).1 + 1)]
          exact hslot
        simp only [hslot, hst]
        rw [slotAt_setSlot_self]
        · rfl
        · rw [length_padTo]
          omega
    | some m =>
        have hst : slotAt st.m_components (GetComponentIndex st.reg k).1 = some m := by
          rw [← slotAt_padTo st.m_components ((GetComponentIndex st.reg k).1 + 1)]
          exact hslot
        simp only [hslot, hst]
        rfl
  · rw [if_neg hlen]
    cases hslot : slotAt st.m_components (GetComponentIndex st.reg k).1 with
    | none =>
        simp only [hslot]
        rw [slotAt_setSlot_self]
        · rfl
        · omega
    | some m => simp only [hslot]; rfl

theorem gas_slot_other {K V : Type} [DecidableEq K] (st : ECS K V) (k : K)
    {j : Nat} (hj : j ≠ (st.GetAppropriateSparseSet k).1) :
    slotAt (st.GetAppropriateSparseSet k).2.m_components j =
      slotAt st.m_components j := by
  rw [gas_fst] at hj
  simp only [ECS.GetAppropriateSparseSet]
  by_cases hlen : st.m_components.length ≤ (GetComponentIndex st.reg k).1
  · rw [if_pos hlen]
    cases hslot : slotAt (padTo st.m_components ((GetComponentIndex st.reg k).1 + 1))
        (GetComponentIndex st.reg k).1 with
    | none =>
        simp only [hslot]
        rw [slotAt_setSlot_ne _ _ hj, slotAt_padTo]
    | some m =>
        simp only [hslot]
        rw [slotAt_padTo]
  · rw [if_neg hlen]
    cases hslot : slotAt st.m_components (GetComponentIndex st.reg k).1 with
    | none =>
        simp only [hslot]
        rw [slotAt_setSlot_ne _ _ hj]
    | some m => simp only [hslot]

theorem wf_store_nodup {K V : Type} {st : ECS K V} (h : st.WF) {i : Nat}
    {m : Store V} (hs : slotAt st.m_components i = some m) :
    (m.map Prod.fst).Nodup := by
  have hlt := slotAt_some_lt hs
  exact (h.2 i (List.mem_range.mpr hlt) m (by simp [hs])).1

theorem wf_registered {K V : Type} {st : ECS K V} (h : st.WF) {i : Nat}
    {m : Store V} (hs : slotAt st.m_components i = some m) :
    ∃ p ∈ st.reg.table, p.2 = i := by
  have hlt := slotAt_some_lt hs
  exact (h.2 i (List.mem_range.mpr hlt) m (by simp [hs])).2

theorem storeOf_eq_of_lookup {K V : Type} [DecidableEq K] {st : ECS K V}
    {k : K} {i : Nat} (h : alookup k st.reg.table = some i) :
    st.storeOf k = (slotAt st.m_components i).getD [] := by
  simp [ECS.storeOf, h]

theorem storeOf_eq_nil_of_none {K V : Type} [DecidableEq K] {st : ECS K V}
    {k : K} (h : alookup k st.reg.table = none) : st.storeOf k = [] := by
  simp [ECS.storeOf, h]

theorem storeOf_nodup {K V : Type} [DecidableEq K] {st : ECS K V} (h : st.WF)
    (k : K) : ((st.storeOf k).map Prod.fst).Nodup := by
  cases hk : alookup k st.reg.table with
  | none => rw [storeOf_eq_nil_of_none hk]; simp
  | some i =>
      rw [storeOf_eq_of_lookup hk]
      cases hs : slotAt st.m_components i with
      | none => simp
      | some m => simpa using wf_store_nodup h hs

theorem gas_lookup {K V : Type} [DecidableEq K] (st : ECS K V) (k : K) :
    alookup k (st.GetAppropriateSparseSet k).2.reg.table =
      some (st.GetAppropriateSparseSet k).1 := by
  rw [gas_reg, gas_fst]
  exact gci_lookup st.reg k

theorem gas_slot_storeOf {K V : Type} [DecidableEq K] {st : ECS K V}
    (h : st.WF) (k : K) :
    slotAt (st.GetAppropriateSparseSet k).2.m_components
      (st.GetAppropriateSparseSet k).1 = some (st.storeOf k) := by
  rw [gas_slot_self]
  cases hk : alookup k st.reg.table with
  | some i =>
      have hfst : (st.GetAppropriateSparseSet k).1 = i := by
        rw [gas_fst, gci_of_lookup_some hk]
      rw [hfst, storeOf_eq_of_lookup hk]
  | none =>
      have hfst : (st.GetAppropriateSparseSet k).1 = st.reg.nextIndex := by
        rw [gas_fst, gci_of_lookup_none hk]
      rw [hfst]
      have hnone : slotAt st.m_components st.reg.nextIndex = none := by
        cases hs : slotAt st.m_components st.reg.nextIndex with
        | none => rfl
        | some m =>
            exfalso
            obtain ⟨p, hp, hpi⟩ := wf_registered h hs
            have := h.1.2.2 p hp
            omega
      rw [hnone, storeOf_eq_nil_of_none hk]
      rfl

theorem gas_storeOf {K V : Type} [DecidableEq K] {st : ECS K V} (h : st.WF)
    (k k2 : K) :
    (st.GetAppropriateSparseSet k).2.storeOf k2 = st.storeOf k2 := by
  by_cases hkk : k2 = k
  · subst hkk
    rw [storeOf_eq_of_lookup (gas_lookup st k2)]
    rw [gas_slot_storeOf h k2]
    rfl
  · cases hk2 : alookup k2 st.reg.table with
    | some i =>
        have hpres : alookup k2 (st.GetAppropriateSparseSet k).2.reg.table = some i := by
          rw [gas_reg]
          exact gci_preserves hk2 k
        rw [storeOf_eq_of_lookup hpres, storeOf_eq_of_lookup hk2]
        have hne : i ≠ (st.GetAppropriateSparseSet k).1 := by
          intro hc
          have hmem2 : (k2, i) ∈ (st.GetAppropriateSparseSet k).2.reg.table :=
            alookup_some_mem hpres
          have hmem1 : (k, (st.GetAppropriateSparseSet k).1) ∈
              (st.GetAppropriateSparseSet k).2.reg.table :=
            alookup_some_mem (gas_lookup st k)
          have hwf2 : RegWF (st.GetAppropriateSparseSet k).2.reg := by
            rw [gas_reg]; exact regWF_gci h.1 k
          have := hwf2.2.1 _ hmem2 _ hmem1 (by simpa using hc)
          exact hkk (by simpa using congrArg Prod.fst this)
        rw [gas_slot_other st k hne]
    | none =>
        have hpres : alookup k2 (st.GetAppropriateSparseSet k).2.reg.table = none := by
          rw [gas_reg]
          exact gci_preserves_none hk2 k hkk
        rw [storeOf_eq_nil_of_none hpres, storeOf_eq_nil_of_none hk2]

theorem gas_has {K V : Type} [DecidableEq K] {st : ECS K V} (h : st.WF)
    (k k2 : K) (e : EntityID) :
    (st.GetAppropriateSparseSet k).2.Has k2 e = st.Has k2 e := by
  unfold ECS.Has
  rw [gas_storeOf h]

theorem gas_wf {K V : Type} [DecidableEq K] {st : ECS K V} (h : st.WF)
    (k : K) : (st.GetAppropriateSparseSet k).2.WF := by
  constructor
  · rw [gas_reg]
    exact regWF_gci h.1 k
  · intro i hi m hm
    simp only [Option.mem_toList, Option.mem_def] at hm
    by_cases hik : i = (st.GetAppropriateSparseSet k).1
    · subst hik
      rw [gas_slot_storeOf h k] at hm
      have hmeq : m = st.storeOf k := by simpa using hm.symm
      subst hmeq
      constructor
      · exact storeOf_nodup h k
      · obtain hmem := alookup_some_mem (gas_lookup st k)
        exact ⟨_, hmem, rfl⟩
    · rw [gas_slot_other st k hik] at hm
      constructor
      · exact wf_store_nodup h hm
      · obtain ⟨p, hp, hpi⟩ := wf_registered h hm
        refine ⟨p, ?_, hpi⟩
        rw [gas_reg]
        exact gci_table_mono st.reg k hp

theorem gas_index_ne {K V : Type} [DecidableEq K] {st : ECS K V} (h : st.WF)
    {k k2 : K} (hkk : k2 ≠ k) {i : Nat}
    (hi : alookup k2 st.reg.table = some i) :
    i ≠ (st.GetAppropriateSparseSet k).1 := by
  intro hc
  have hpres : alookup k2 (st.GetAppropriateSparseSet k).2.reg.table = some i := by
    rw [gas_reg]
    exact gci_preserves hi k
  have hmem2 : (k2, i) ∈ (st.GetAppropriateSparseSet k).2.reg.table :=
    alookup_some_mem hpres
  have hmem1 : (k, (st.GetAppropriateSparseSet k).1) ∈
      (st.GetAppropriateSparseSet k).2.reg.table :=
    alookup_some_mem (gas_lookup st k)
  have hwf2 : RegWF (st.GetAppropriateSparseSet k).2.reg := by
    rw [gas_reg]; exact regWF_gci h.1 k
  have := hwf2.2.1 _ hmem2 _ hmem1 (by simpa using hc)
  exact hkk (by simpa using congrArg Prod.fst this)

theorem gas_lt_length {K V : Type} [DecidableEq K] (st : ECS K V) (k : K) :
    (st.GetAppropriateSparseSet k).1 <
      (st.GetAppropriateSparseSet k).2.m_components.length :=
  slotAt_some_lt (gas_slot_self st k)

theorem storeOf_mk_some {K V : Type} [DecidableEq K] {r : Registry K} {k : K}
    {i : Nat} (c : List (Option (Store V))) (hl : alookup k r.table = some i) :
    (ECS.mk r c).storeOf k = (slotAt c i).getD [] := by
  unfold ECS.storeOf
  simp only [hl]

theorem storeOf_mk_none {K V : Type} [DecidableEq K] {r : Registry K} {k : K}
    (c : List (Option (Store V))) (hl : alookup k r.table = none) :
    (ECS.mk r c).storeOf k = [] := by
  unfold ECS.storeOf
  simp only [hl]

theorem storeOf_gasSet_self {K V : Type} [DecidableEq K] (st : ECS K V)
    (k : K) (newm : Store V) :
    (ECS.mk (st.GetAppropriateSparseSet k).2.reg
      (setSlot (st.GetAppropriateSparseSet k).2.m_components
        (st.GetAppropriateSparseSet k).1 (some newm))).storeOf k = newm := by
  rw [storeOf_mk_some _ (gas_lookup st k)]
  rw [slotAt_setSlot_self _ (gas_lt_length st k)]
  rfl

theorem storeOf_gasSet_other {K V : Type} [DecidableEq K] {st : ECS K V}
    (h : st.WF) {k k2 : K} (hkk : k2 ≠ k) (newm : Store V) :
    (ECS.mk (st.GetAppropriateSparseSet k).2.reg
      (setSlot (st.GetAppropriateSparseSet k).2.m_components
        (st.GetAppropriateSparseSet k).1 (some newm))).storeOf k2 =
      st.storeOf k2 := by
  cases hk2 : alookup k2 st.reg.table with
  | some i =>
      have hpres : alookup k2 (st.GetAppropriateSparseSet k).2.reg.table = some i := by
        rw [gas_reg]
        exact gci_preserves hk2 k
      rw [storeOf_mk_some _ hpres, storeOf_eq_of_lookup hk2]
      rw [slotAt_setSlot_ne _ _ (gas_index_ne h hkk hk2)]
      rw [gas_slot_other st k (gas_index_ne h hkk hk2)]
  | none =>
      have hpres : alookup k2 (st.GetAppropriateSparseSet k).2.reg.table = none := by
        rw [gas_reg]
        exact gci_preserves_none hk2 k hkk
      rw [storeOf_mk_none _ hpres, storeOf_eq_nil_of_none hk2]

theorem wf_gasSet {K V : Type} [DecidableEq K] {st : ECS K V} (h : st.WF)
    (k : K) {newm : Store V} (hnew : (newm.map Prod.fst).Nodup) :
    (ECS.mk (st.GetAppropriateSparseSet k).2.reg
      (setSlot (st.GetAppropriateSparseSet k).2.m_components
        (st.GetAppropriateSparseSet k).1 (some newm))).WF := by
  constructor
  · rw [gas_reg]
    exact regWF_gci h.1 k
  · intro i hi m hm
    simp only [Option.mem_toList, Option.mem_def] at hm
    by_cases hik : i = (st.GetAppropriateSparseSet k).1
    · subst hik
      rw [slotAt_setSlot_self _ (gas_lt_length st k)] at hm
      have hmeq : m = newm := by simpa using hm.symm
      subst hmeq
      refine ⟨hnew, ?_⟩
      exact ⟨_, alookup_some_mem (gas_lookup st k), rfl⟩
    · rw [slotAt_setSlot_ne _ _ hik] at hm
      refine ⟨wf_store_nodup (gas_wf h k) hm, ?_⟩
      exact wf_registered (gas_wf h k) hm

/-! Characterizations of `Drop`, `SetComp` and `Get` on well-formed states. -/

theorem drop_eq {K V : Type} [DecidableEq K] {st : ECS K V} (h : st.WF)
    (k : K) (e : EntityID) :
    st.Drop k e =
      ECS.mk (st.GetAppropriateSparseSet k).2.reg
        (setSlot (st.GetAppropriateSparseSet k).2.m_components
          (st.GetAppropriateSparseSet k).1 (some (eraseE e (st.storeOf k)))) := by
  simp only [ECS.Drop, gas_slot_storeOf h k, Option.getD_some]

theorem setComp_eq {K V : Type} [DecidableEq K] {st : ECS K V} (h : st.WF)
    (k : K) (e : EntityID) (v : V) :
    st.SetComp k e v =
      ECS.mk (st.GetAppropriateSparseSet k).2.reg
        (setSlot (st.GetAppropriateSparseSet k).2.m_components
          (st.GetAppropriateSparseSet k).1 (some (updE e v (st.storeOf k)))) := by
  simp only [ECS.SetComp, gas_slot_storeOf h k, Option.getD_some]

theorem get_eq_of_some {K V : Type} [DecidableEq K] [Inhabited V]
    {st : ECS K V} (h : st.WF) {k : K} {e : EntityID} {v : V}
    (hv : alookup e (st.storeOf k) = some v) :
    st.Get k e = (v, (st.GetAppropriateSparseSet k).2) := by
  simp only [ECS.Get, gas_slot_storeOf h k, Option.getD_some, hv]

theorem get_eq_of_none {K V : Type} [DecidableEq K] [Inhabited V]
    {st : ECS K V} (h : st.WF) {k : K} {e : EntityID}
    (hv : alookup e (st.storeOf k) = none) :
    st.Get k e =
      (default, ECS.mk (st.GetAppropriateSparseSet k).2.reg
        (setSlot (st.GetAppropriateSparseSet k).2.m_components
          (st.GetAppropriateSparseSet k).1
          (some (st.storeOf k ++ [(e, default)])))) := by
  simp only [ECS.Get, gas_slot_storeOf h k, Option.getD_some, hv]

/-! Lemmas about `Destroy`. -/

theorem storeOf_destroy {K V : Type} [DecidableEq K] (st : ECS K V)
    (e : EntityID) (k : K) :
    (st.Destroy e).storeOf k = eraseE e (st.storeOf k) := by
  unfold ECS.Destroy
  cases hk : alookup k st.reg.table with
  | none =>
      rw [storeOf_mk_none _ hk, storeOf_eq_nil_of_none hk]
      rfl
  | some i =>
      rw [storeOf_mk_some _ hk, storeOf_eq_of_lookup hk]
      rw [slotAt_dropAll]
      cases slotAt st.m_components i with
      | none => rfl
      | some m => rfl

theorem has_destroy_self {K V : Type} [DecidableEq K] (st : ECS K V)
    (e : EntityID) (k : K) : (st.Destroy e).Has k e = false := by
  unfold ECS.Has
  rw [storeOf_destroy, alookup_eraseE_self]
  rfl

theorem has_destroy_stays_false {K V : Type} [DecidableEq K] {st : ECS K V}
    {k : K} {e : EntityID} (h : st.Has k e = false) (e2 : EntityID) :
    (st.Destroy e2).Has k e = false := by
  unfold ECS.Has at h ⊢
  rw [storeOf_destroy]
  by_cases he : e = e2
  · subst he
    rw [alookup_eraseE_self]
    rfl
  · rw [alookup_eraseE_ne he]
    exact h

theorem dropAll_eq_of {V : Type} {e : EntityID} {c : List (Option (Store V))}
    (h : ∀ i m, slotAt c i = some m → eraseE e m = m) : dropAll e c = c := by
  induction c with
  | nil => rfl
  | cons s rest ih =>
      unfold dropAll
      congr 1
      · cases s with
        | none => rfl
        | some m => simpa using h 0 m rfl
      · exact ih fun i m hm => h (i + 1) m hm

theorem destroy_of_not_has {K V : Type} [DecidableEq K] {st : ECS K V}
    (h : st.WF) {e : EntityID} (hno : ∀ k, st.Has k e = false) :
    st.Destroy e = st := by
  have hdrop : dropAll e st.m_components = st.m_components := by
    apply dropAll_eq_of
    intro i m hm
    obtain ⟨p, hp, hpi⟩ := wf_registered h hm
    have hlook : alookup p.1 st.reg.table = some p.2 :=
      alookup_of_mem_functional h.1.1 hp
    have hstore : st.storeOf p.1 = m := by
      rw [storeOf_eq_of_lookup hlook, hpi, hm]
      rfl
    have hhas := hno p.1
    unfold ECS.Has at hhas
    rw [hstore] at hhas
    have : alookup e m = none := by
      cases hl : alookup e m with
      | none => rfl
      | some w => rw [hl] at hhas; simp at hhas
    exact eraseE_of_alookup_none this
  show ECS.mk st.reg (dropAll e st.m_components) = st
  rw [hdrop]

theorem dropAll_idem {V : Type} (e : EntityID) (c : List (Option (Store V))) :
    dropAll e (dropAll e c) = dropAll e c := by
  induction c with
  | nil => rfl
  | cons s rest ih =>
      cases s with
      | none => simp [dropAll, ih]
      | some m => simp [dropAll, ih, eraseE_idem]

theorem destroy_idem {K V : Type} [DecidableEq K] (st : ECS K V)
    (e : EntityID) : (st.Destroy e).Destroy e = st.Destroy e := by
  show ECS.mk st.reg (dropAll e (dropAll e st.m_components)) = _
  rw [dropAll_idem]
  rfl

/-! Lemmas about `HasAll` and `ForEach`. -/

theorem hasAll_spec {K V : Type} [DecidableEq K] (e : EntityID) (ks : List K)
    (st : ECS K V) (h : st.WF) :
    ((ECS.HasAll e ks st).1 = ks.all fun k => st.Has k e) ∧
    (∀ k2, (ECS.HasAll e ks st).2.storeOf k2 = st.storeOf k2) ∧
    (ECS.HasAll e ks st).2.WF := by
  induction ks generalizing st with
  | nil => exact ⟨rfl, fun _ => rfl, h⟩
  | cons k rest ih =>
      obtain ⟨ih1, ih2, ih3⟩ := ih st h
      by_cases hq : (ECS.HasAll e rest st).1 = true
      · have hslot := gas_slot_storeOf ih3 k
        have hall : rest.all (fun k2 => st.Has k2 e) = true := by rw [← ih1]; exact hq
        refine ⟨?_, ?_, ?_⟩
        · simp only [ECS.HasAll, hq, if_true, List.all_cons, hall, Bool.and_true]
          rw [hslot]
          simp only [Option.getD_some]
          rw [ih2 k]
          rfl
        · intro k2
          simp only [ECS.HasAll, hq, if_true]
          rw [gas_storeOf ih3 k k2]
          exact ih2 k2
        · simp only [ECS.HasAll, hq, if_true]
          exact gas_wf ih3 k
      · have hq2 : (ECS.HasAll e rest st).1 = false := by
          simpa using hq
        have hall : rest.all (fun k2 => st.Has k2 e) = false := by rw [← ih1]; exact hq2
        refine ⟨?_, ?_, ?_⟩
        · simp only [ECS.HasAll, hq2, List.all_cons, hall, Bool.and_false]
          simp
        · intro k2
          simp only [ECS.HasAll, hq2]
          simpa using ih2 k2
        · simp only [ECS.HasAll, hq2]
          simpa using ih3

theorem has_congr_of_storeOf {K V : Type} [DecidableEq K] {st st2 : ECS K V}
    (h : ∀ k2, st.storeOf k2 = st2.storeOf k2) (k : K) (e : EntityID) :
    st.Has k e = st2.Has k e := by
  unfold ECS.Has
  rw [h k]

theorem forEachGo_spec {K V : Type} [DecidableEq K] (rest : List K)
    (st0 : ECS K V) (es : Store V) :
    ∀ st : ECS K V, st.WF → (∀ k2, st.storeOf k2 = st0.storeOf k2) →
      (ECS.ForEachGo rest es st).1 =
        (es.filter fun pr => rest.all fun k => st0.Has k pr.1).map Prod.fst := by
  induction es with
  | nil => intro st hWF hpres; rfl
  | cons p es ih =>
      intro st hWF hpres
      by_cases hre : rest.isEmpty
      · have hrnil : rest = [] := List.isEmpty_iff.mp hre
        subst hrnil
        simp only [ECS.ForEachGo, List.isEmpty_nil, if_true, List.filter_cons,
          List.all_nil, if_pos rfl, List.map_cons, ih st hWF hpres]
      · have hre2 : rest.isEmpty = false := by simpa using hre
        obtain ⟨ha1, ha2, ha3⟩ := hasAll_spec p.1 rest st hWF
        have hfun : (fun k => st.Has k p.1) = fun k => st0.Has k p.1 :=
          funext fun k => has_congr_of_storeOf hpres k p.1
        have hpred : (rest.all fun k => st0.Has k p.1) = (ECS.HasAll p.1 rest st).1 := by
          rw [ha1, hfun]
        have hpres2 : ∀ k2, (ECS.HasAll p.1 rest st).2.storeOf k2 = st0.storeOf k2 :=
          fun k2 => (ha2 k2).trans (hpres k2)
        have ihe := ih (ECS.HasAll p.1 rest st).2 ha3 hpres2
        simp only [ECS.ForEachGo, hre2, Bool.false_eq_true, if_false, List.filter_cons]
        cases hb : (ECS.HasAll p.1 rest st).1 with
        | true =>
            rw [hb] at hpred
            simp only [hb, if_true, hpred, if_pos rfl, List.map_cons]
            rw [ihe]
        | false =>
            rw [hb] at hpred
            simp only [hb, Bool.false_eq_true, if_false, hpred]
            rw [ihe]

/-! Further helper lemmas for the claims. -/

theorem gas_idem {K V : Type} [DecidableEq K] {st : ECS K V} {k : K} {i : Nat}
    {m : Store V} (hl : alookup k st.reg.table = some i)
    (hs : slotAt st.m_components i = some m) :
    st.GetAppropriateSparseSet k = (i, st) := by
  have hlt := slotAt_some_lt hs
  simp only [ECS.GetAppropriateSparseSet, gci_of_lookup_some hl]
  rw [if_neg (by omega)]
  simp only [hs]

theorem createMany_state {K V : Type} (n : Nat) (a : Alloc) (st : ECS K V) :
    (createMany n a st).2.2 = st := by
  induction n generalizing a with
  | zero => rfl
  | succ n ih => exact ih ⟨a.next + 1, a.next :: a.alive⟩

theorem destroyEach_has_false {K V : Type} [DecidableEq K] {st : ECS K V}
    {k : K} {e : EntityID} (h : st.Has k e = false) (ids : List EntityID) :
    (st.destroyEach ids).Has k e = false := by
  induction ids generalizing st with
  | nil => exact h
  | cons x xs ih => exact ih (has_destroy_stays_false h x)

theorem destroyEach_mem_false {K V : Type} [DecidableEq K] (st : ECS K V)
    (k : K) {e : EntityID} {ids : List EntityID} (hmem : e ∈ ids) :
    (st.destroyEach ids).Has k e = false := by
  induction ids generalizing st with
  | nil => simp at hmem
  | cons x xs ih =>
      rcases List.mem_cons.mp hmem with he | he
      · subst he
        exact destroyEach_has_false (has_destroy_self st e k) xs
      · exact ih (st.Destroy x) he

theorem storeOf_drop_self {K V : Type} [DecidableEq K] {st : ECS K V}
    (h : st.WF) (k : K) (e : EntityID) :
    (st.Drop k e).storeOf k = eraseE e (st.storeOf k) := by
  rw [drop_eq h]
  exact storeOf_gasSet_self st k _

theorem storeOf_drop_other {K V : Type} [DecidableEq K] {st : ECS K V}
    (h : st.WF) {k k2 : K} (hkk : k2 ≠ k) (e : EntityID) :
    (st.Drop k e).storeOf k2 = st.storeOf k2 := by
  rw [drop_eq h]
  exact storeOf_gasSet_other h hkk _

theorem has_eq_false_iff {K V : Type} [DecidableEq K] {st : ECS K V} {k : K}
    {e : EntityID} : st.Has k e = false ↔ alookup e (st.storeOf k) = none := by
  unfold ECS.Has
  cases hl : alookup e (st.storeOf k) <;> simp

theorem get_post {K V : Type} [DecidableEq K] [Inhabited V] {st : ECS K V}
    (h : st.WF) (k : K) (e : EntityID) :
    ∃ i m, alookup k (st.Get k e).2.reg.table = some i ∧
      slotAt (st.Get k e).2.m_components i = some m ∧
      alookup e m = some (st.Get k e).1 := by
  cases hv : alookup e (st.storeOf k) with
  | some v =>
      rw [get_eq_of_some h hv]
      exact ⟨(st.GetAppropriateSparseSet k).1, st.storeOf k, gas_lookup st k,
        gas_slot_storeOf h k, hv⟩
  | none =>
      rw [get_eq_of_none h hv]
      refine ⟨(st.GetAppropriateSparseSet k).1, st.storeOf k ++ [(e, default)],
        gas_lookup st k, ?_, ?_⟩
      · exact slotAt_setSlot_self _ (gas_lt_length st k)
      · rw [alookup_append_of_none e _ _ hv]
        simp [alookup]

/-! The claims. -/

/-- C1: for every ECS state and non-empty list of component kinds
`k1 :: rest`, `ForEach` invokes the callback exactly on the entities that
have every listed kind at the time of the call: the visit list has no
duplicates (each qualifying entity at most once), and an entity is visited
precisely when it has `k1` and every kind in `rest`. -/
theorem forEach_visits_exactly_qualifying {K V : Type} [DecidableEq K]
    (st : ECS K V) (h : st.WF) (k1 : K) (rest : List K) :
    (st.ForEach k1 rest).1.Nodup ∧
    ∀ e, e ∈ (st.ForEach k1 rest).1 ↔
      (st.Has k1 e = true ∧ (rest.all fun k => st.Has k e) = true) := by
  have hcont : (slotAt (st.GetAppropriateSparseSet k1).2.m_components
      (st.GetAppropriateSparseSet k1).1).getD [] = st.storeOf k1 := by
    rw [gas_slot_storeOf h k1]
    rfl
  have hvis : (st.ForEach k1 rest).1 =
      ((st.storeOf k1).filter fun pr => rest.all fun k => st.Has k pr.1).map
        Prod.fst := by
    simp only [ECS.ForEach]
    rw [hcont]
    exact forEachGo_spec rest st (st.storeOf k1) (st.GetAppropriateSparseSet k1).2
      (gas_wf h k1) (fun k2 => gas_storeOf h k1 k2)
  constructor
  · rw [hvis]
    exact List.Nodup.sublist (List.Sublist.map Prod.fst (List.filter_sublist _))
      (storeOf_nodup h k1)
  · intro e
    rw [hvis]
    constructor
    · intro hmem
      obtain ⟨pr, hpr, hfst⟩ := List.mem_map.mp hmem
      obtain ⟨hin, hpredu⟩ := List.mem_filter.mp hpr
      constructor
      · unfold ECS.Has
        apply (alookup_isSome_iff_mem_keys e (st.storeOf k1)).mpr
        rw [← hfst]
        exact List.mem_map_of_mem Prod.fst hin
      · rw [← hfst]
        simpa using hpredu
    · rintro ⟨h1, h2⟩
      unfold ECS.Has at h1
      have hk := (alookup_isSome_iff_mem_keys e (st.storeOf k1)).mp h1
      obtain ⟨pr, hin, hfst⟩ := List.mem_map.mp hk
      apply List.mem_map.mpr
      refine ⟨pr, List.mem_filter.mpr ⟨hin, ?_⟩, hfst⟩
      show (rest.all fun k => st.Has k pr.1) = true
      rw [hfst]
      exact h2

/-- C2: if entity `e` has no component of kind `k`, then `Get` returns the
default-constructed (value-initialized) component, installs it for `e`, and
afterwards `Has` holds for `(k, e)`. -/
theorem get_or_create_default {K V : Type} [DecidableEq K] [Inhabited V]
    {st : ECS K V} (h : st.WF) (k : K) (e : EntityID)
    (hno : st.Has k e = false) :
    (st.Get k e).1 = default ∧ (st.Get k e).2.Has k e = true := by
  have hvnone : alookup e (st.storeOf k) = none := has_eq_false_iff.mp hno
  have hg := get_eq_of_none h hvnone
  constructor
  · rw [hg]
  · rw [hg]
    unfold ECS.Has
    simp only []
    rw [storeOf_gasSet_self]
    rw [alookup_append_of_none e _ _ hvnone]
    simp [alookup]

/-- C3: after `Destroy(e)`, entity `e` has no component of any kind; in
particular, for any sequence of `Create()` calls followed by `Destroy` on
each returned identifier, no created entity has any component afterwards. -/
theorem destroy_removes_all_components {K V : Type} [DecidableEq K]
    (st : ECS K V) (e : EntityID) (k : K) :
    ((st.Destroy e).Has k e = false) ∧
    ∀ (n : Nat) (a : Alloc), ∀ e2 ∈ (createMany n a st).1,
      ((createMany n a st).2.2.destroyEach (createMany n a st).1).Has k e2 =
        false := by
  constructor
  · exact has_destroy_self st e k
  · intro n a e2 hmem
    exact destroyEach_mem_false _ k hmem

/-- C4: kind-to-store resolution is stable (resolving a kind again returns
the same index and changes nothing, and a memoized index survives any other
resolution), injective (a second, distinct kind never resolves to the first
kind's index), and a kind's store is created lazily on first use, in exactly
one freshly-created slot, leaving every other slot untouched. -/
theorem kind_resolution_stable_injective {K V : Type} [DecidableEq K]
    (r : Registry K) (hr : RegWF r) (k k2 : K) (hkk : k ≠ k2)
    (st : ECS K V) (h : st.WF) :
    (GetComponentIndex (GetComponentIndex r k).2 k = GetComponentIndex r k) ∧
    (∀ i, alookup k r.table = some i →
      alookup k (GetComponentIndex r k2).2.table = some i) ∧
    ((GetComponentIndex (GetComponentIndex r k).2 k2).1 ≠
      (GetComponentIndex r k).1) ∧
    (alookup k st.reg.table = none →
      st.storeOf k = [] ∧
      slotAt (st.GetAppropriateSparseSet k).2.m_components
        (st.GetAppropriateSparseSet k).1 = some [] ∧
      ∀ j, j ≠ (st.GetAppropriateSparseSet k).1 →
        slotAt (st.GetAppropriateSparseSet k).2.m_components j =
          slotAt st.m_components j) := by
  refine ⟨gci_stable r k, fun i hi => gci_preserves hi k2, ?_, ?_⟩
  · intro hc
    cases h2 : alookup k2 (GetComponentIndex r k).2.table with
    | some j =>
        rw [gci_of_lookup_some h2] at hc
        simp only [] at hc
        have hmem2 : (k2, j) ∈ (GetComponentIndex r k).2.table :=
          alookup_some_mem h2
        have hmem1 : (k, (GetComponentIndex r k).1) ∈
            (GetComponentIndex r k).2.table :=
          alookup_some_mem (gci_lookup r k)
        have heq := (regWF_gci hr k).2.1 _ hmem2 _ hmem1 (by simpa using hc)
        exact hkk (by simpa using (congrArg Prod.fst heq).symm)
    | none =>
        rw [gci_of_lookup_none h2] at hc
        simp only [] at hc
        have := gci_fst_lt hr k
        omega
  · intro hnone
    refine ⟨storeOf_eq_nil_of_none hnone, ?_, fun j hj => gas_slot_other st k hj⟩
    rw [gas_slot_storeOf h k, storeOf_eq_nil_of_none hnone]

theorem get_stable {K V : Type} [DecidableEq K] [Inhabited V] {st1 : ECS K V}
    {k : K} {e : EntityID} {i : Nat} {m : Store V} {v : V}
    (hl : alookup k st1.reg.table = some i)
    (hs : slotAt st1.m_components i = some m)
    (hv : alookup e m = some v) :
    st1.Get k e = (v, st1) := by
  simp only [ECS.Get, gas_idem hl hs, hs, Option.getD_some, hv]

theorem setComp_stable {K V : Type} [DecidableEq K] {st1 : ECS K V}
    {k : K} {e : EntityID} {i : Nat} {m : Store V}
    (hl : alookup k st1.reg.table = some i)
    (hs : slotAt st1.m_components i = some m) (w : V) :
    st1.SetComp k e w =
      ECS.mk st1.reg (setSlot st1.m_components i (some (updE e w m))) := by
  simp only [ECS.SetComp, gas_idem hl hs, hs, Option.getD_some]

/-- C5: `Get` is idempotent on the underlying storage: a second `Get` with no
intervening writes returns the same component value and leaves the state
unchanged (nothing new is created), the component exists after the first
`Get`, and a write through the reference is seen by a subsequent read. -/
theorem get_idempotent {K V : Type} [DecidableEq K] [Inhabited V]
    {st : ECS K V} (h : st.WF) (k : K) (e : EntityID) (w : V) :
    ((st.Get k e).2.Get k e = ((st.Get k e).1, (st.Get k e).2)) ∧
    ((st.Get k e).2.Has k e = true) ∧
    ((((st.Get k e).2.SetComp k e w).Get k e).1 = w) := by
  obtain ⟨i, m, hl, hs, hv⟩ := get_post h k e
  have hlt := slotAt_some_lt hs
  refine ⟨get_stable hl hs hv, ?_, ?_⟩
  · unfold ECS.Has
    rw [storeOf_eq_of_lookup hl, hs]
    simp only [Option.getD_some, hv, Option.isSome_some]
  · rw [setComp_stable hl hs w]
    have hl2 : alookup k (ECS.mk (st.Get k e).2.reg
        (setSlot (st.Get k e).2.m_components i (some (updE e w m)))).reg.table =
        some i := hl
    have hs2 : slotAt (ECS.mk (st.Get k e).2.reg
        (setSlot (st.Get k e).2.m_components i (some (updE e w m)))).m_components
        i = some (updE e w m) := slotAt_setSlot_self _ hlt
    rw [get_stable hl2 hs2 (alookup_updE_self e w m)]

/-- C6: after `Drop<K>(e)`, `Has<K>(e)` is false; if `e` had no `K`
component, the call changes no observable membership or stored value for any
kind and entity; and components of every other kind are untouched. -/
theorem drop_semantics {K V : Type} [DecidableEq K] {st : ECS K V}
    (h : st.WF) (k : K) (e : EntityID) :
    ((st.Drop k e).Has k e = false) ∧
    (st.Has k e = false → ∀ k2 e2,
      ((st.Drop k e).Has k2 e2 = st.Has k2 e2) ∧
      (alookup e2 ((st.Drop k e).storeOf k2) = alookup e2 (st.storeOf k2))) ∧
    (∀ k2, k2 ≠ k → ∀ e2,
      ((st.Drop k e).Has k2 e2 = st.Has k2 e2) ∧
      (alookup e2 ((st.Drop k e).storeOf k2) = alookup e2 (st.storeOf k2))) := by
  have hother : ∀ k2, k2 ≠ k → ∀ e2,
      ((st.Drop k e).Has k2 e2 = st.Has k2 e2) ∧
      (alookup e2 ((st.Drop k e).storeOf k2) = alookup e2 (st.storeOf k2)) := by
    intro k2 hkk e2
    rw [ECS.Has, ECS.Has, storeOf_drop_other h hkk]
    exact ⟨rfl, rfl⟩
  refine ⟨?_, ?_, hother⟩
  · unfold ECS.Has
    rw [storeOf_drop_self h, alookup_eraseE_self]
    rfl
  · intro hno k2 e2
    by_cases hkk : k2 = k
    · subst hkk
      have : (st.Drop k2 e).storeOf k2 = st.storeOf k2 := by
        rw [storeOf_drop_self h,
          eraseE_of_alookup_none (has_eq_false_iff.mp hno)]
      rw [ECS.Has, ECS.Has, this]
      exact ⟨rfl, rfl⟩
    · exact hother k2 hkk e2

/-- C7: kinds are isolated: creating or assigning a component of kind `A` on
entity `e` (through `Get` or a write through its reference) leaves `Has` for
any distinct kind `B` unchanged, so it can never become true. -/
theorem kind_isolation {K V : Type} [DecidableEq K] [Inhabited V]
    {st : ECS K V} (h : st.WF) {A B : K} (hAB : A ≠ B) (e : EntityID)
    (v : V) :
    ((st.Get A e).2.Has B e = st.Has B e) ∧
    ((st.SetComp A e v).Has B e = st.Has B e) := by
  have hBA : B ≠ A := fun hc => hAB hc.symm
  constructor
  · cases hv : alookup e (st.storeOf A) with
    | some w =>
        rw [get_eq_of_some h hv]
        exact gas_has h A B e
    | none =>
        rw [get_eq_of_none h hv]
        simp only []
        rw [ECS.Has, ECS.Has, storeOf_gasSet_other h hBA]
  · rw [setComp_eq h, ECS.Has, ECS.Has, storeOf_gasSet_other h hBA]

/-- C8: `Destroy` is idempotent and never an error: destroying an entity that
has no components leaves the whole state unchanged, and destroying an entity
a second time is a no-op. -/
theorem destroy_idempotent_no_error {K V : Type} [DecidableEq K]
    {st : ECS K V} (h : st.WF) (e : EntityID) :
    ((∀ k, st.Has k e = false) → st.Destroy e = st) ∧
    ((st.Destroy e).Destroy e = st.Destroy e) :=
  ⟨fun hno => destroy_of_not_has h hno, destroy_idem st e⟩

/-- C9: `Create` returns a fresh identifier not shared with any alive entity,
preserves the pairwise-distinctness invariant of alive identifiers, and
touches no component store (the ECS state is returned unchanged).  The
allocator is modelled from the spec, as `Create()` is left unimplemented in
the source. -/
theorem create_fresh_untouched {K V : Type} (a : Alloc) (st : ECS K V)
    (h : AllocWF a) :
    ((Create a st).1 ∉ a.alive) ∧ AllocWF (Create a st).2.1 ∧
    (Create a st).2.2 = st := by
  obtain ⟨hnd, hlt⟩ := h
  have hfresh : a.next ∉ a.alive := fun hc =>
    absurd (hlt a.next hc) (lt_irrefl a.next)
  refine ⟨hfresh, ⟨List.Nodup.cons hfresh hnd, ?_⟩, rfl⟩
  intro x hx
  show x < a.next + 1
  have hx2 : x ∈ a.next :: a.alive := hx
  rcases List.mem_cons.mp hx2 with hx1 | hx1
  · rw [hx1]
    exact lt_add_one a.next
  · exact lt_trans (hlt x hx1) (lt_add_one a.next)

/-- C10: `Destroy` affects only the destroyed entity: for any other entity
`e2` and any kind `k`, both membership and the stored component value are
unchanged. -/
theorem destroy_frame {K V : Type} [DecidableEq K] (st : ECS K V) (k : K)
    {e e2 : EntityID} (hne : e2 ≠ e) :
    ((st.Destroy e).Has k e2 = st.Has k e2) ∧
    (alookup e2 ((st.Destroy e).storeOf k) = alookup e2 (st.storeOf k)) := by
  have hval : alookup e2 ((st.Destroy e).storeOf k) =
      alookup e2 (st.storeOf k) := by
    rw [storeOf_destroy, alookup_eraseE_ne hne]
  refine ⟨?_, hval⟩
  rw [ECS.Has, ECS.Has, hval]

instance {K : Type} [DecidableEq K] (r : Registry K) : Decidable (RegWF r) := by
  unfold RegWF
  infer_instance

instance {K V : Type} [DecidableEq K] [DecidableEq V] (st : ECS K V) :
    Decidable st.WF := by
  unfold ECS.WF
  infer_instance

instance (a : Alloc) : Decidable (AllocWF a) := by
  unfold AllocWF
  infer_instance

/-! Concrete witnesses.  `exampleECS` is a small well-formed state: the
registry has assigned index 0 to kind 0 and index 1 to kind 1; kind 0's
sparse set holds entities 5 and 6, kind 1's sparse set holds entity 5. -/

def exampleECS : ECS Nat Nat :=
  ⟨⟨2, [(0, 0), (1, 1)]⟩, [some [(5, 7), (6, 8)], some [(5, 3)]]⟩

theorem exampleECS_has_nine (k : Nat) : exampleECS.Has k 9 = false := by
  match k with
  | 0 => decide
  | 1 => decide
  | n + 2 =>
      have h0 : (0 : Nat) ≠ n + 2 := by omega
      have h1 : (1 : Nat) ≠ n + 2 := by omega
      unfold ECS.Has
      rw [storeOf_eq_nil_of_none]
      · rfl
      · show alookup (n + 2) [((0 : Nat), (0 : Nat)), (1, 1)] = none
        simp [alookup, h0, h1]

/-- Witness for C1: at `exampleECS`, iterating kinds `0, 1` visits without
duplicates, and entity 5 is visited exactly when it has both kinds. -/
theorem forEach_visits_exactly_qualifying_witness :
    (exampleECS.ForEach 0 [1]).1.Nodup ∧
    (5 ∈ (exampleECS.ForEach 0 [1]).1 ↔
      (exampleECS.Has 0 5 = true ∧
        ([1].all fun k => exampleECS.Has k 5) = true)) :=
  ⟨(forEach_visits_exactly_qualifying exampleECS (by decide) 0 [1]).1,
   (forEach_visits_exactly_qualifying exampleECS (by decide) 0 [1]).2 5⟩

/-- Witness for C2: entity 9 has no kind-0 component, `Get` returns the
default value and afterwards `Has` holds. -/
theorem get_or_create_default_witness :
    exampleECS.Has 0 9 = false ∧
    ((exampleECS.Get 0 9).1 = default ∧ (exampleECS.Get 0 9).2.Has 0 9 = true) :=
  ⟨by decide, get_or_create_default (by decide) 0 9 (by decide)⟩

/-- Witness for C3: destroying entity 5 removes its kind-0 component, and a
create-two-then-destroy-both run leaves entity 0 with no kind-0 component. -/
theorem destroy_removes_all_components_witness :
    ((exampleECS.Destroy 5).Has 0 5 = false) ∧
    ((createMany 2 (Alloc.mk 0 []) exampleECS).2.2.destroyEach
      (createMany 2 (Alloc.mk 0 []) exampleECS).1).Has 0 0 = false :=
  ⟨(destroy_removes_all_components exampleECS 5 0).1,
   (destroy_removes_all_components exampleECS 5 0).2 2 (Alloc.mk 0 [])
     0 (by decide)⟩

/-- Witness for C4: resolving the unseen kind 5 twice is stable, kind 1
resolves to a different index, and kind 5's store is created lazily as an
empty set. -/
theorem kind_resolution_stable_injective_witness :
    (GetComponentIndex (GetComponentIndex exampleECS.reg 5).2 5 =
      GetComponentIndex exampleECS.reg 5) ∧
    ((GetComponentIndex (GetComponentIndex exampleECS.reg 5).2 1).1 ≠
      (GetComponentIndex exampleECS.reg 5).1) ∧
    (exampleECS.storeOf 5 = [] ∧
      slotAt (exampleECS.GetAppropriateSparseSet 5).2.m_components
        (exampleECS.GetAppropriateSparseSet 5).1 = some []) :=
  ⟨(kind_resolution_stable_injective exampleECS.reg (by decide) 5 1
      (by decide) exampleECS (by decide)).1,
   (kind_resolution_stable_injective exampleECS.reg (by decide) 5 1
      (by decide) exampleECS (by decide)).2.2.1,
   ((kind_resolution_stable_injective exampleECS.reg (by decide) 5 1
      (by decide) exampleECS (by decide)).2.2.2 (by decide)).1,
   ((kind_resolution_stable_injective exampleECS.reg (by decide) 5 1
      (by decide) exampleECS (by decide)).2.2.2 (by decide)).2.1⟩

/-- Witness for C5: at `exampleECS`, a second `Get` of entity 5's kind-0
component returns the same value and state, the component exists, and a
write through the reference is read back. -/
theorem get_idempotent_witness :
    ((exampleECS.Get 0 5).2.Get 0 5 =
      ((exampleECS.Get 0 5).1, (exampleECS.Get 0 5).2)) ∧
    ((exampleECS.Get 0 5).2.Has 0 5 = true) ∧
    ((((exampleECS.Get 0 5).2.SetComp 0 5 42).Get 0 5).1 = 42) :=
  get_idempotent (by decide) 0 5 42

/-- Witness for C6: dropping entity 5's kind-1 component clears it, dropping
an absent component changes nothing observable, and other kinds are
untouched. -/
theorem drop_semantics_witness :
    ((exampleECS.Drop 1 5).Has 1 5 = false) ∧
    ((exampleECS.Drop 1 6).Has 0 6 = exampleECS.Has 0 6) ∧
    ((exampleECS.Drop 1 5).Has 0 5 = exampleECS.Has 0 5) :=
  ⟨(drop_semantics (by decide) 1 5).1,
   ((drop_semantics (by decide) 1 6).2.1 (by decide) 0 6).1,
   ((drop_semantics (by decide) 1 5).2.2 0 (by decide) 5).1⟩

/-- Witness for C7: creating or writing a kind-0 component on entity 9 does
not change whether entity 9 has kind 1. -/
theorem kind_isolation_witness :
    ((exampleECS.Get 0 9).2.Has 1 9 = exampleECS.Has 1 9) ∧
    ((exampleECS.SetComp 0 9 4).Has 1 9 = exampleECS.Has 1 9) :=
  kind_isolation (by decide) (by decide) 9 4

/-- Witness for C8: destroying component-less entity 9 leaves the state
unchanged, and destroying entity 5 twice equals destroying it once. -/
theorem destroy_idempotent_no_error_witness :
    (exampleECS.Destroy 9 = exampleECS) ∧
    ((exampleECS.Destroy 5).Destroy 5 = exampleECS.Destroy 5) :=
  ⟨(destroy_idempotent_no_error (by decide) 9).1 exampleECS_has_nine,
   (destroy_idempotent_no_error (by decide) 5).2⟩

/-- Witness for C9: with alive entities 0, 1, 2 and counter 3, `Create`
returns a fresh identifier, keeps the invariant, and leaves the component
state untouched. -/
theorem create_fresh_untouched_witness :
    ((Create (Alloc.mk 3 [0, 1, 2]) exampleECS).1 ∉
      (Alloc.mk 3 [0, 1, 2]).alive) ∧
    AllocWF (Create (Alloc.mk 3 [0, 1, 2]) exampleECS).2.1 ∧
    (Create (Alloc.mk 3 [0, 1, 2]) exampleECS).2.2 = exampleECS :=
  create_fresh_untouched (Alloc.mk 3 [0, 1, 2]) exampleECS (by decide)

/-- Witness for C10: destroying entity 5 leaves entity 6's kind-0 membership
and stored value unchanged. -/
theorem destroy_frame_witness :
    ((exampleECS.Destroy 5).Has 0 6 = exampleECS.Has 0 6) ∧
    (alookup 6 ((exampleECS.Destroy 5).storeOf 0) =
      alookup 6 (exampleECS.storeOf 0)) :=
  destroy_frame exampleECS 0 (by decide)
